import Mathlib

/-!
Verification of the rana vanity-key miner (src/main.rs) against its
natural-language specification.  The worker loop, target-mode resolution,
difficulty ratchet and iteration counter of main.rs are shallowly embedded
below; strings are modelled as lists of characters, the u8/u64 atomics as
natural numbers reduced modulo 2^8 or 2^64 where the source can overflow.
-/

namespace Rana

/-- Modelled from the spec: the helper `get_leading_zero_bits` lives in
`rana::utils`, whose source file is not part of the sources given; the spec
describes it as: scan the serialized public key bytes most-significant-bit
first; leading_zero_bits = count of consecutive zero bits before the first
set bit (or the full bit length if all bits are zero).  This function counts
the leading zero bits of a single byte (value taken mod 256), MSB first. -/
def leadingZeroBitsOfByte (b : Nat) : Nat :=
  if (b % 256).testBit 7 then 0
  else if (b % 256).testBit 6 then 1
  else if (b % 256).testBit 5 then 2
  else if (b % 256).testBit 4 then 3
  else if (b % 256).testBit 3 then 4
  else if (b % 256).testBit 2 then 5
  else if (b % 256).testBit 1 then 6
  else if (b % 256).testBit 0 then 7
  else 8

/-- Modelled from the spec: `get_leading_zero_bits` over a byte sequence,
MSB-first scan; an all-zero sequence yields the full bit length. -/
def get_leading_zero_bits : List Nat → Nat
  | [] => 0
  | b :: rest =>
    if b % 256 = 0 then 8 + get_leading_zero_bits rest
    else leadingZeroBitsOfByte b

/-- Configuration inputs consumed by `main` (after CLI parsing and the
comma-splitting of the raw npub prefix/suffix inputs, which drops empty
pieces): `difficulty` (a u8), `vanity_prefix`, `vanity_npub_prefixes`,
`vanity_npub_suffixes`.  Strings are lists of characters. -/
structure CLIArgs where
  difficulty : Nat
  vanityPrefix : List Char
  vanityNpubPrefixes : List (List Char)
  vanityNpubSuffixes : List (List Char)
deriving Repr, DecidableEq

/-- The constant `DIFFICULTY_DEFAULT` of main.rs line 21. -/
def DIFFICULTY_DEFAULT : Nat := 10

/-- The `pow_difficulty` value computed by main.rs lines 60-104: hex mode
uses 4 bits per char of the hex vanity prefix; combined bech32 mode uses the
first prefix plus the first suffix; single-set bech32 modes use their first
element; otherwise the configured difficulty, replaced by
`DIFFICULTY_DEFAULT` when it is 0.  The `as u8` cast is `% 256`. -/
def resolvePow (a : CLIArgs) : Nat :=
  if !a.vanityPrefix.isEmpty then
    (a.vanityPrefix.length * 4) % 256
  else if !a.vanityNpubPrefixes.isEmpty && !a.vanityNpubSuffixes.isEmpty then
    ((a.vanityNpubPrefixes.headD []).length * 4
      + (a.vanityNpubSuffixes.headD []).length * 4) % 256
  else if !a.vanityNpubPrefixes.isEmpty then
    ((a.vanityNpubPrefixes.headD []).length * 4) % 256
  else if !a.vanityNpubSuffixes.isEmpty then
    ((a.vanityNpubSuffixes.headD []).length * 4) % 256
  else if a.difficulty = 0 then DIFFICULTY_DEFAULT
  else a.difficulty

/-- Initial value of the shared `best_diff` register (main.rs line 119):
`AtomicU8::new(pow_difficulty)`. -/
def best_diff_init (a : CLIArgs) : Nat := resolvePow a

/-- The five mutually exclusive target modes of the spec. -/
inductive Mode where
  | hexVanity
  | bech32Both
  | bech32Pre
  | bech32Post
  | difficulty
deriving Repr, DecidableEq

/-- The startup mode resolution (main.rs lines 62-104 decide which message
and pow estimate is produced; the same priority chain governs the claims):
hex vanity first, then combined bech32, then bech32 prefixes only, then
bech32 suffixes only, then difficulty. -/
def modeOf (a : CLIArgs) : Mode :=
  if !a.vanityPrefix.isEmpty then Mode.hexVanity
  else if !a.vanityNpubPrefixes.isEmpty && !a.vanityNpubSuffixes.isEmpty then Mode.bech32Both
  else if !a.vanityNpubPrefixes.isEmpty then Mode.bech32Pre
  else if !a.vanityNpubSuffixes.isEmpty then Mode.bech32Post
  else Mode.difficulty

/-- One candidate key pair as seen by the worker loop: the hex encoding of
the x-only public key (`hexa_key`), its bech32 "npub" encoding (`bech_key`,
produced by the external bech32 library on the decoded hex), and the
serialized 32 public key bytes. -/
structure Candidate where
  hexaKey : List Char
  bechKey : List Char
  serialized : List Nat
deriving Repr, DecidableEq

/-- The literal "npub1" prepended to every bech32 vanity target. -/
def npub1 : List Char := ['n', 'p', 'u', 'b', '1']

/-- The literal "..." placed between prefix and suffix in the vanity label. -/
def dots : List Char := ['.', '.', '.']

/-- The combined test of main.rs lines 204-207: the bech32 key starts with
"npub1" ++ p and ends with s. -/
def satPair (bech p s : List Char) : Bool :=
  (npub1 ++ p).isPrefixOf bech && s.isSuffixOf bech

/-- Inner loop of the combined bech32 search (main.rs lines 203-215):
iterate the suffixes in configured order, stop at the first one making the
pair test succeed. -/
def searchPosts (bech p : List Char) : List (List Char) → Option (List Char)
  | [] => none
  | s :: rest => if satPair bech p s then some s else searchPosts bech p rest

/-- Outer loop of the combined bech32 search (main.rs lines 202-219):
iterate the prefixes in configured order; for each, run the inner suffix
loop; stop at the first satisfying pair. -/
def searchBoth (bech : List Char) (posts : List (List Char)) :
    List (List Char) → Option (List Char × List Char)
  | [] => none
  | p :: rest =>
    match searchPosts bech p posts with
    | some s => some (p, s)
    | none => searchBoth bech posts rest

/-- Prefix-only bech32 loop (main.rs lines 221-230): first configured prefix
p with bech_key starting with "npub1" ++ p. -/
def searchPres (bech : List Char) : List (List Char) → Option (List Char)
  | [] => none
  | p :: rest =>
    if (npub1 ++ p).isPrefixOf bech then some p else searchPres bech rest

/-- Suffix-only bech32 loop (main.rs lines 232-239): first configured suffix
s with bech_key ending with s. -/
def searchSuffixOnly (bech : List Char) : List (List Char) → Option (List Char)
  | [] => none
  | s :: rest =>
    if s.isSuffixOf bech then some s else searchSuffixOnly bech rest

/-- Outcome of evaluating one candidate in the worker loop: the values of
`is_valid_pubkey`, `leading_zeroes` and `vanity_npub` when the loop body
reaches the report step, plus the value of the `best_diff` register after
the body ran (`newBest`). -/
structure EvalResult where
  isValid : Bool
  leadingZeroes : Nat
  vanityNpub : List Char
  newBest : Nat
deriving Repr, DecidableEq

/-- Body of the hex vanity branch (main.rs lines 189-191). -/
def hexEval (a : CLIArgs) (c : Candidate) (best : Nat) : EvalResult :=
  { isValid := a.vanityPrefix.isPrefixOf c.hexaKey
    leadingZeroes := 0
    vanityNpub := []
    newBest := best }

/-- Body of the combined bech32 branch (main.rs lines 201-219). -/
def bothEval (a : CLIArgs) (c : Candidate) (best : Nat) : EvalResult :=
  match searchBoth c.bechKey a.vanityNpubSuffixes a.vanityNpubPrefixes with
  | some (p, s) =>
    { isValid := true, leadingZeroes := 0, vanityNpub := p ++ dots ++ s, newBest := best }
  | none =>
    { isValid := false, leadingZeroes := 0, vanityNpub := [], newBest := best }

/-- Body of the prefix-only bech32 branch (main.rs lines 220-230). -/
def preEval (a : CLIArgs) (c : Candidate) (best : Nat) : EvalResult :=
  match searchPres c.bechKey a.vanityNpubPrefixes with
  | some p =>
    { isValid := true, leadingZeroes := 0, vanityNpub := p, newBest := best }
  | none =>
    { isValid := false, leadingZeroes := 0, vanityNpub := [], newBest := best }

/-- Body of the suffix-only bech32 branch (main.rs lines 231-240). -/
def postEval (a : CLIArgs) (c : Candidate) (best : Nat) : EvalResult :=
  match searchSuffixOnly c.bechKey a.vanityNpubSuffixes with
  | some s =>
    { isValid := true, leadingZeroes := 0, vanityNpub := s, newBest := best }
  | none =>
    { isValid := false, leadingZeroes := 0, vanityNpub := [], newBest := best }

/-- Body of the difficulty branch (main.rs lines 241-255): compute the
leading zero bits, match iff strictly above the register, and on a match
overwrite the register with the new count, but only when the register was
nonzero. -/
def diffEval (c : Candidate) (best : Nat) : EvalResult :=
  let lz := get_leading_zero_bits c.serialized
  if best < lz then
    { isValid := true
      leadingZeroes := lz
      vanityNpub := []
      newBest := if 0 < best then lz else best }
  else
    { isValid := false, leadingZeroes := lz, vanityNpub := [], newBest := best }

/-- Per-candidate evaluation of the worker loop (main.rs lines 183-255),
with the branch structure of the source: hex vanity if `vanity_ts` is
nonempty; else the bech32 branch if any npub prefixes or suffixes are
configured (split inside into combined / prefixes-only / suffixes-only);
else the difficulty branch. -/
def evaluate (a : CLIArgs) (c : Candidate) (best : Nat) : EvalResult :=
  if !a.vanityPrefix.isEmpty then hexEval a c best
  else if !a.vanityNpubPrefixes.isEmpty || !a.vanityNpubSuffixes.isEmpty then
    if !a.vanityNpubPrefixes.isEmpty && !a.vanityNpubSuffixes.isEmpty then
      bothEval a c best
    else if !a.vanityNpubPrefixes.isEmpty then preEval a c best
    else postEval a c best
  else diffEval c best

/-- Sequential run of one worker over a list of candidates, threading the
`best_diff` register through `evaluate`; returns the evaluation results in
order. -/
def runWorker (a : CLIArgs) (best : Nat) : List Candidate → List EvalResult
  | [] => []
  | c :: cs =>
    let r := evaluate a c best
    r :: runWorker a r.newBest cs

/-- Leading-zero-bit counts of the reports emitted by a sequential worker
run: a report is emitted exactly when `is_valid_pubkey` holds. -/
def reportedLz (a : CLIArgs) (best : Nat) (cs : List Candidate) : List Nat :=
  ((runWorker a best cs).filter (fun r => r.isValid)).map (fun r => r.leadingZeroes)

/-- One `iterations.fetch_add(1, Relaxed)` on the shared `AtomicU64`
(main.rs line 145): an atomic read-modify-write adding 1 modulo 2^64. -/
def fetchAddOne (c : Nat) : Nat := (c + 1) % 2 ^ 64

/-- Value of the shared iteration counter after a trace of atomic
increments.  A trace records, in interleaving order, which worker performed
each `fetch_add`; because `fetch_add` is a single atomic read-modify-write,
every interleaving applies the increments one after another with no lost
updates, which is exactly this fold. -/
def runCounter (t : List Nat) : Nat := t.foldl (fun c _ => fetchAddOne c) 0

/-- One loop iteration's key generation as the worker sees it: `some c`
when key generation and mnemonic derivation succeeded with candidate `c`,
`none` when any of the fallible steps (`generate_mnemonic`,
`from_mnemonic`, `secret_key`, main.rs lines 152-168) failed — each of
those calls is wrapped in `expect`, which panics. -/
def GenOutcome := Option Candidate

/-- A worker consuming a list of per-iteration generation outcomes: a
panicking `expect` aborts the worker at once, so a `none` outcome stops the
run with the abnormal flag set and the remaining outcomes are never
examined; a `some` outcome completes the loop body fully and continues.
Returns the candidates of the completed iterations and whether the worker
terminated abnormally. -/
def runWorkerGen : List (Option Candidate) → List Candidate × Bool
  | [] => ([], false)
  | none :: _ => ([], true)
  | some c :: rest =>
    let r := runWorkerGen rest
    (c :: r.1, r.2)

/-- Length of the shortest string in a nonempty list (0 for an empty
list); used only to state claim C2 the way it is worded. -/
def minLen : List (List Char) → Nat
  | [] => 0
  | x :: xs => xs.foldl (fun m y => min m y.length) x.length

/-- The estimated proof-of-work as claim C2 words it (a spec-side
definition, for comparison with `resolvePow`): 4 bits per character of the
SHORTEST configured prefix/suffix — hex mode: 4 times the hex prefix
length; combined mode: 4 times the sum of the shortest prefix and shortest
suffix lengths; single-set bech32 modes: 4 times the shortest element
length. -/
def claimEstimatedPow (a : CLIArgs) : Nat :=
  if !a.vanityPrefix.isEmpty then 4 * a.vanityPrefix.length
  else if !a.vanityNpubPrefixes.isEmpty && !a.vanityNpubSuffixes.isEmpty then
    4 * (minLen a.vanityNpubPrefixes + minLen a.vanityNpubSuffixes)
  else if !a.vanityNpubPrefixes.isEmpty then 4 * minLen a.vanityNpubPrefixes
  else if !a.vanityNpubSuffixes.isEmpty then 4 * minLen a.vanityNpubSuffixes
  else 0

/-- Every branch body of the worker loop other than the difficulty branch
leaves `leading_zeroes` at its initial value 0 (main.rs line 183). -/
theorem hexEval_leadingZeroes (a : CLIArgs) (c : Candidate) (best : Nat) :
    (hexEval a c best).leadingZeroes = 0 := rfl

theorem bothEval_leadingZeroes (a : CLIArgs) (c : Candidate) (best : Nat) :
    (bothEval a c best).leadingZeroes = 0 := by
  unfold bothEval
  cases searchBoth c.bechKey a.vanityNpubSuffixes a.vanityNpubPrefixes with
  | none => rfl
  | some ps => rfl

theorem preEval_leadingZeroes (a : CLIArgs) (c : Candidate) (best : Nat) :
    (preEval a c best).leadingZeroes = 0 := by
  unfold preEval
  cases searchPres c.bechKey a.vanityNpubPrefixes with
  | none => rfl
  | some p => rfl

theorem postEval_leadingZeroes (a : CLIArgs) (c : Candidate) (best : Nat) :
    (postEval a c best).leadingZeroes = 0 := by
  unfold postEval
  cases searchSuffixOnly c.bechKey a.vanityNpubSuffixes with
  | none => rfl
  | some s => rfl

/-- C1: in difficulty mode, a candidate matches iff its leading_zero_bits
count strictly exceeds the value currently in the best-difficulty register,
and on a match the register is set to that count provided its value was
nonzero. -/
theorem c1_difficulty_match_and_ratchet (a : CLIArgs) (c : Candidate) (best : Nat)
    (h1 : a.vanityPrefix = []) (h2 : a.vanityNpubPrefixes = [])
    (h3 : a.vanityNpubSuffixes = []) :
    ((evaluate a c best).isValid = true ↔
      get_leading_zero_bits c.serialized > best) ∧
    ((evaluate a c best).isValid = true → 0 < best →
      (evaluate a c best).newBest = get_leading_zero_bits c.serialized) := by
  have he : evaluate a c best = diffEval c best := by
    unfold evaluate
    simp [h1, h2, h3]
  rw [he]
  unfold diffEval
  by_cases hlt : get_leading_zero_bits c.serialized > best
  · simp only [hlt, if_pos]
    refine ⟨by simp [hlt], ?_⟩
    intro _ hb
    simp [hb]
  · simp [hlt]

/-- Witness for C1 at a concrete difficulty-mode run: the serialized key
[0, 64] has 9 leading zero bits, the register holds 5, so the candidate
matches and the register is raised to 9. -/
theorem c1_witness :
    ((evaluate ⟨0, [], [], []⟩ ⟨[], [], [0, 64]⟩ 5).isValid = true ↔
      get_leading_zero_bits [0, 64] > 5) ∧
    ((evaluate ⟨0, [], [], []⟩ ⟨[], [], [0, 64]⟩ 5).isValid = true → 0 < 5 →
      (evaluate ⟨0, [], [], []⟩ ⟨[], [], [0, 64]⟩ 5).newBest =
        get_leading_zero_bits [0, 64]) :=
  c1_difficulty_match_and_ratchet ⟨0, [], [], []⟩ ⟨[], [], [0, 64]⟩ 5 rfl rfl rfl

/-- C3: one target mode is active per run, chosen by the priority order
hex > combined bech32 > bech32-prefixes-only > bech32-suffixes-only >
difficulty; the worker loop applies exactly the selected mode's test, and
in difficulty mode with configured difficulty 0 the register starts at the
built-in default. -/
theorem c3_mode_priority_dispatch (a : CLIArgs) (c : Candidate) (best : Nat) :
    (modeOf a = Mode.hexVanity → evaluate a c best = hexEval a c best) ∧
    (modeOf a = Mode.bech32Both → evaluate a c best = bothEval a c best) ∧
    (modeOf a = Mode.bech32Pre → evaluate a c best = preEval a c best) ∧
    (modeOf a = Mode.bech32Post → evaluate a c best = postEval a c best) ∧
    (modeOf a = Mode.difficulty → evaluate a c best = diffEval c best) ∧
    (modeOf a = Mode.difficulty → a.difficulty = 0 →
      best_diff_init a = DIFFICULTY_DEFAULT) := by
  unfold modeOf evaluate best_diff_init resolvePow
  cases h1 : a.vanityPrefix.isEmpty <;>
    cases h2 : a.vanityNpubPrefixes.isEmpty <;>
      cases h3 : a.vanityNpubSuffixes.isEmpty <;>
        simp [h1, h2, h3]
  intro h0 h0'
  exact absurd h0 h0'

/-- Witness for C3: with a hex vanity prefix configured the hex test is
the one applied, and with nothing configured the register starts at the
default 10. -/
theorem c3_witness :
    (evaluate ⟨0, ['a'], [], []⟩ ⟨['a', 'b'], [], []⟩ 0 =
      hexEval ⟨0, ['a'], [], []⟩ ⟨['a', 'b'], [], []⟩ 0) ∧
    best_diff_init ⟨0, [], [], []⟩ = DIFFICULTY_DEFAULT :=
  ⟨(c3_mode_priority_dispatch ⟨0, ['a'], [], []⟩ ⟨['a', 'b'], [], []⟩ 0).1 (by decide),
   (c3_mode_priority_dispatch ⟨0, [], [], []⟩ ⟨[], [], []⟩ 0).2.2.2.2.2 (by decide) rfl⟩

/-- C7: in hex vanity mode a candidate is accepted iff its hex public key
string starts with the configured prefix (character-exact, hence
case-sensitive), and every candidate whose hex key does not start with the
prefix is rejected. -/
theorem c7_hex_match_iff (a : CLIArgs) (c : Candidate) (best : Nat)
    (h : a.vanityPrefix ≠ []) :
    ((evaluate a c best).isValid = true ↔ a.vanityPrefix <+: c.hexaKey) ∧
    (¬ a.vanityPrefix <+: c.hexaKey → (evaluate a c best).isValid = false) := by
  have hne : a.vanityPrefix.isEmpty = false := by
    simp [List.isEmpty_iff, h]
  unfold evaluate hexEval
  simp only [hne, Bool.not_false, if_pos]
  constructor
  · exact List.isPrefixOf_iff_prefix
  · intro hnp
    cases hb : a.vanityPrefix.isPrefixOf c.hexaKey with
    | false => rfl
    | true => exact absurd (List.isPrefixOf_iff_prefix.mp hb) hnp

/-- Witness for C7: prefix "ab" accepts the hex key "abc" (and the iff is
established at that concrete input). -/
theorem c7_witness :
    ((evaluate ⟨0, ['a', 'b'], [], []⟩ ⟨['a', 'b', 'c'], [], []⟩ 3).isValid = true ↔
      ['a', 'b'] <+: ['a', 'b', 'c']) ∧
    (¬ ['a', 'b'] <+: ['a', 'b', 'c'] →
      (evaluate ⟨0, ['a', 'b'], [], []⟩ ⟨['a', 'b', 'c'], [], []⟩ 3).isValid = false) :=
  c7_hex_match_iff ⟨0, ['a', 'b'], [], []⟩ ⟨['a', 'b', 'c'], [], []⟩ 3 (by decide)

/-- C9: whenever the active mode is not the difficulty mode (hex vanity or
any bech32 vanity mode), the reported `leading_zeroes` value is 0, because
the metric is only computed in the difficulty branch. -/
theorem c9_vanity_reports_zero_lz (a : CLIArgs) (c : Candidate) (best : Nat)
    (h : modeOf a ≠ Mode.difficulty) :
    (evaluate a c best).leadingZeroes = 0 := by
  unfold modeOf at h
  unfold evaluate
  cases h1 : a.vanityPrefix.isEmpty <;>
    cases h2 : a.vanityNpubPrefixes.isEmpty <;>
      cases h3 : a.vanityNpubSuffixes.isEmpty <;>
        simp [h1, h2, h3] at h ⊢ <;>
          simp [hexEval_leadingZeroes, bothEval_leadingZeroes,
            preEval_leadingZeroes, postEval_leadingZeroes]

/-- Witness for C9 at a concrete bech32 suffix-only configuration. -/
theorem c9_witness :
    (evaluate ⟨0, [], [], [['x']]⟩ ⟨[], ['n', 'x'], [7]⟩ 2).leadingZeroes = 0 :=
  c9_vanity_reports_zero_lz ⟨0, [], [], [['x']]⟩ ⟨[], ['n', 'x'], [7]⟩ 2 (by decide)

/-- Characterisation of the pair test of the combined bech32 branch. -/
theorem satPair_iff (bech p s : List Char) :
    satPair bech p s = true ↔ (npub1 ++ p) <+: bech ∧ s <:+ bech := by
  simp [satPair, List.isPrefixOf_iff_prefix, List.isSuffixOf_iff_suffix,
    Bool.and_eq_true]

/-- The inner suffix loop fails iff no configured suffix makes the pair
test succeed. -/
theorem searchPosts_eq_none_iff (bech p : List Char) (posts : List (List Char)) :
    searchPosts bech p posts = none ↔ ∀ s ∈ posts, satPair bech p s = false := by
  induction posts with
  | nil => simp [searchPosts]
  | cons s rest ih =>
    unfold searchPosts
    by_cases hs : satPair bech p s = true
    · simp [hs]
    · simp only [Bool.not_eq_true] at hs
      simp [hs, ih]

/-- A suffix returned by the inner loop is a configured suffix that makes
the pair test succeed. -/
theorem searchPosts_mem_sat (bech p s : List Char) (posts : List (List Char))
    (h : searchPosts bech p posts = some s) :
    s ∈ posts ∧ satPair bech p s = true := by
  induction posts with
  | nil => simp [searchPosts] at h
  | cons t rest ih =>
    unfold searchPosts at h
    by_cases ht : satPair bech p t = true
    · simp [ht] at h
      subst h
      exact ⟨List.mem_cons_self t rest, ht⟩
    · simp only [Bool.not_eq_true] at ht
      simp [ht] at h
      rcases ih h with ⟨hm, hs⟩
      exact ⟨List.mem_cons_of_mem t hm, hs⟩

/-- The inner loop returns the first suffix, in configured order, making
the pair test succeed. -/
theorem searchPosts_first (bech p s : List Char) (posts1 posts2 : List (List Char))
    (hsat : satPair bech p s = true)
    (hbefore : ∀ t ∈ posts1, satPair bech p t = false) :
    searchPosts bech p (posts1 ++ s :: posts2) = some s := by
  induction posts1 with
  | nil => simp [searchPosts, hsat]
  | cons t rest ih =>
    have ht : satPair bech p t = false := hbefore t (List.mem_cons_self t rest)
    simp only [List.cons_append]
    unfold searchPosts
    simp [ht]
    exact ih fun u hu => hbefore u (List.mem_cons_of_mem t hu)

/-- The outer prefix loop fails iff the inner loop fails on every
configured prefix. -/
theorem searchBoth_eq_none_iff (bech : List Char) (posts pres : List (List Char)) :
    searchBoth bech posts pres = none ↔
      ∀ p ∈ pres, searchPosts bech p posts = none := by
  induction pres with
  | nil => simp [searchBoth]
  | cons p rest ih =>
    unfold searchBoth
    cases hp : searchPosts bech p posts with
    | some s => simp [hp]
    | none => simp [hp, ih]

/-- A pair returned by the combined search is a configured prefix together
with the suffix its inner loop found. -/
theorem searchBoth_some (bech p s : List Char) (posts pres : List (List Char))
    (h : searchBoth bech posts pres = some (p, s)) :
    p ∈ pres ∧ searchPosts bech p posts = some s := by
  induction pres with
  | nil => simp [searchBoth] at h
  | cons q rest ih =>
    unfold searchBoth at h
    cases hq : searchPosts bech q posts with
    | some t =>
      simp [hq] at h
      rcases h with ⟨hqp, hts⟩
      subst hqp
      subst hts
      exact ⟨List.mem_cons_self q rest, hq⟩
    | none =>
      simp [hq] at h
      rcases ih h with ⟨hm, hs⟩
      exact ⟨List.mem_cons_of_mem q hm, hs⟩

/-- The outer loop stops at the first prefix whose inner loop succeeds:
prefix-major order. -/
theorem searchBoth_first (bech p s : List Char)
    (posts pres1 pres2 : List (List Char))
    (hbefore : ∀ q ∈ pres1, searchPosts bech q posts = none)
    (hp : searchPosts bech p posts = some s) :
    searchBoth bech posts (pres1 ++ p :: pres2) = some (p, s) := by
  induction pres1 with
  | nil =>
    simp only [List.nil_append]
    unfold searchBoth
    simp [hp]
  | cons q rest ih =>
    have hq : searchPosts bech q posts = none :=
      hbefore q (List.mem_cons_self q rest)
    simp only [List.cons_append]
    unfold searchBoth
    simp [hq]
    exact ih fun u hu => hbefore u (List.mem_cons_of_mem q hu)

/-- C4: in combined bech32 mode a candidate matches iff some configured
pair (p, s) has the bech32 key starting with "npub1" ++ p and ending with
s; the search is prefix-major (prefixes outer, suffixes inner, first
satisfying pair wins) and the reported label for the winning pair is
p ++ "..." ++ s. -/
theorem c4_combined_bech32 (a : CLIArgs) (c : Candidate) (best : Nat)
    (h0 : a.vanityPrefix = []) (h1 : a.vanityNpubPrefixes ≠ [])
    (h2 : a.vanityNpubSuffixes ≠ []) :
    ((evaluate a c best).isValid = true ↔
      ∃ p ∈ a.vanityNpubPrefixes, ∃ s ∈ a.vanityNpubSuffixes,
        (npub1 ++ p) <+: c.bechKey ∧ s <:+ c.bechKey) ∧
    (∀ p s pres1 pres2 posts1 posts2,
      a.vanityNpubPrefixes = pres1 ++ p :: pres2 →
      a.vanityNpubSuffixes = posts1 ++ s :: posts2 →
      satPair c.bechKey p s = true →
      (∀ q ∈ pres1, ∀ t ∈ a.vanityNpubSuffixes, satPair c.bechKey q t = false) →
      (∀ t ∈ posts1, satPair c.bechKey p t = false) →
      (evaluate a c best).isValid = true ∧
        (evaluate a c best).vanityNpub = p ++ dots ++ s) := by
  have he : evaluate a c best = bothEval a c best := by
    unfold evaluate
    simp [h0, List.isEmpty_iff, h1, h2]
  rw [he]
  constructor
  · unfold bothEval
    cases hsb : searchBoth c.bechKey a.vanityNpubSuffixes a.vanityNpubPrefixes with
    | none =>
      simp only [EvalResult.mk.injEq]
      constructor
      · intro hfalse
        simp at hfalse
      · rintro ⟨p, hp, s, hs, hpre, hsuf⟩
        have hnone := (searchBoth_eq_none_iff _ _ _).mp hsb p hp
        have hall := (searchPosts_eq_none_iff _ _ _).mp hnone s hs
        rw [(satPair_iff c.bechKey p s).mpr ⟨hpre, hsuf⟩] at hall
        cases hall
    | some ps =>
      obtain ⟨p, s⟩ := ps
      rcases searchBoth_some c.bechKey p s _ _ hsb with ⟨hp, hps⟩
      rcases searchPosts_mem_sat c.bechKey p s _ hps with ⟨hs, hsat⟩
      rcases (satPair_iff c.bechKey p s).mp hsat with ⟨hpre, hsuf⟩
      constructor
      · intro _
        exact ⟨p, hp, s, hs, hpre, hsuf⟩
      · intro _
        rfl
  · intro p s pres1 pres2 posts1 posts2 hpres hposts hsat hqall hpall
    have hinner : searchPosts c.bechKey p a.vanityNpubSuffixes = some s := by
      rw [hposts]
      exact searchPosts_first c.bechKey p s posts1 posts2 hsat
        (by
          intro t ht
          exact hpall t ht)
    have houter : searchBoth c.bechKey a.vanityNpubSuffixes a.vanityNpubPrefixes =
        some (p, s) := by
      rw [hpres]
      refine searchBoth_first c.bechKey p s _ pres1 pres2 ?_ hinner
      intro q hq
      exact (searchPosts_eq_none_iff _ _ _).mpr fun t ht => hqall q hq t ht
    unfold bothEval
    rw [houter]
    exact ⟨rfl, rfl⟩

/-- Witness for C4: prefixes ["ab","cd"], suffix ["xy"], bech32 key
"npub1cd0xy": the pair (cd, xy) matches and the label is "cd...xy". -/
theorem c4_witness :
    ((evaluate ⟨0, [], [['a', 'b'], ['c', 'd']], [['x', 'y']]⟩
        ⟨[], ['n', 'p', 'u', 'b', '1', 'c', 'd', '0', 'x', 'y'], []⟩ 0).isValid = true ↔
      ∃ p ∈ [['a', 'b'], ['c', 'd']], ∃ s ∈ [['x', 'y']],
        (npub1 ++ p) <+: ['n', 'p', 'u', 'b', '1', 'c', 'd', '0', 'x', 'y'] ∧
          s <:+ ['n', 'p', 'u', 'b', '1', 'c', 'd', '0', 'x', 'y']) ∧
    (∀ p s pres1 pres2 posts1 posts2,
      [['a', 'b'], ['c', 'd']] = pres1 ++ p :: pres2 →
      [['x', 'y']] = posts1 ++ s :: posts2 →
      satPair ['n', 'p', 'u', 'b', '1', 'c', 'd', '0', 'x', 'y'] p s = true →
      (∀ q ∈ pres1, ∀ t ∈ [['x', 'y']],
        satPair ['n', 'p', 'u', 'b', '1', 'c', 'd', '0', 'x', 'y'] q t = false) →
      (∀ t ∈ posts1,
        satPair ['n', 'p', 'u', 'b', '1', 'c', 'd', '0', 'x', 'y'] p t = false) →
      (evaluate ⟨0, [], [['a', 'b'], ['c', 'd']], [['x', 'y']]⟩
          ⟨[], ['n', 'p', 'u', 'b', '1', 'c', 'd', '0', 'x', 'y'], []⟩ 0).isValid = true ∧
        (evaluate ⟨0, [], [['a', 'b'], ['c', 'd']], [['x', 'y']]⟩
            ⟨[], ['n', 'p', 'u', 'b', '1', 'c', 'd', '0', 'x', 'y'], []⟩ 0).vanityNpub =
          p ++ dots ++ s) :=
  c4_combined_bech32 ⟨0, [], [['a', 'b'], ['c', 'd']], [['x', 'y']]⟩
    ⟨[], ['n', 'p', 'u', 'b', '1', 'c', 'd', '0', 'x', 'y'], []⟩ 0
    rfl (by decide) (by decide)

/-- Shape of the difficulty branch result on a match. -/
theorem diffEval_match (c : Candidate) (best : Nat)
    (h : best < get_leading_zero_bits c.serialized) :
    diffEval c best =
      { isValid := true
        leadingZeroes := get_leading_zero_bits c.serialized
        vanityNpub := []
        newBest := if 0 < best then get_leading_zero_bits c.serialized else best } := by
  unfold diffEval
  simp [h]

/-- Shape of the difficulty branch result on a non-match. -/
theorem diffEval_nomatch (c : Candidate) (best : Nat)
    (h : ¬ best < get_leading_zero_bits c.serialized) :
    diffEval c best =
      { isValid := false
        leadingZeroes := get_leading_zero_bits c.serialized
        vanityNpub := []
        newBest := best } := by
  unfold diffEval
  simp [h]

/-- Unfolding of a sequential run's report list over the first candidate. -/
theorem reportedLz_cons (a : CLIArgs) (best : Nat) (c : Candidate)
    (cs : List Candidate) :
    reportedLz a best (c :: cs) =
      (if (evaluate a c best).isValid then [(evaluate a c best).leadingZeroes]
        else []) ++ reportedLz a (evaluate a c best).newBest cs := by
  have hrw : runWorker a best (c :: cs) =
      evaluate a c best :: runWorker a (evaluate a c best).newBest cs := rfl
  unfold reportedLz
  rw [hrw]
  by_cases hv : (evaluate a c best).isValid = true
  · simp [List.filter_cons, hv]
  · simp only [Bool.not_eq_true] at hv
    simp [List.filter_cons, hv]

/-- Difficulty-mode ratchet invariant for a sequential worker run starting
from a nonzero register: every emitted report strictly exceeds the starting
register value, and the reports are pairwise strictly increasing in
emission order. -/
theorem reportedLz_ratchet (a : CLIArgs)
    (h1 : a.vanityPrefix = []) (h2 : a.vanityNpubPrefixes = [])
    (h3 : a.vanityNpubSuffixes = []) :
    ∀ (cs : List Candidate) (best : Nat), 0 < best →
      (∀ x ∈ reportedLz a best cs, best < x) ∧
        List.Pairwise (· < ·) (reportedLz a best cs) := by
  intro cs
  induction cs with
  | nil =>
    intro best _
    constructor
    · intro x hx
      simp [reportedLz, runWorker] at hx
    · simp [reportedLz, runWorker]
  | cons c cs ih =>
    intro best hb
    have he : evaluate a c best = diffEval c best := by
      unfold evaluate
      simp [h1, h2, h3]
    rw [reportedLz_cons, he]
    by_cases hv : best < get_leading_zero_bits c.serialized
    · rw [diffEval_match c best hv]
      simp only [if_pos hb, List.cons_append, List.nil_append, if_true]
      have hlz0 : 0 < get_leading_zero_bits c.serialized := lt_trans hb hv
      rcases ih (get_leading_zero_bits c.serialized) hlz0 with ⟨hall, hpw⟩
      constructor
      · intro x hx
        rcases List.mem_cons.mp hx with hx | hx
        · exact hx ▸ hv
        · exact lt_trans hv (hall x hx)
      · exact List.Pairwise.cons (fun y hy => hall y hy) hpw
    · rw [diffEval_nomatch c best hv]
      simp only [Bool.false_eq_true, if_false, List.nil_append]
      exact ih best hb

/-- C5: a single difficulty-mode worker starting from a configured
threshold of 1 emits a first report with at least 2 leading zero bits, and
the reports are pairwise strictly increasing: each is strictly greater
than every earlier one, so once the register is raised to D nothing ≤ D is
ever reported again. -/
theorem c5_threshold_one_run (a : CLIArgs) (cs : List Candidate)
    (h1 : a.vanityPrefix = []) (h2 : a.vanityNpubPrefixes = [])
    (h3 : a.vanityNpubSuffixes = []) (hd : a.difficulty = 1) :
    best_diff_init a = 1 ∧
      List.Pairwise (· < ·) (reportedLz a (best_diff_init a) cs) ∧
      ∀ x ∈ reportedLz a (best_diff_init a) cs, 2 ≤ x := by
  have hb : best_diff_init a = 1 := by
    unfold best_diff_init resolvePow
    simp [h1, h2, h3, hd]
  rw [hb]
  rcases reportedLz_ratchet a h1 h2 h3 cs 1 (by decide) with ⟨hall, hpw⟩
  exact ⟨rfl, hpw, fun x hx => hall x hx⟩

/-- Witness for C5: a three-candidate run (9 leading zero bits, then 3,
then 10) from the register seeded by a configured difficulty of 1. -/
theorem c5_witness :
    best_diff_init ⟨1, [], [], []⟩ = 1 ∧
      List.Pairwise (· < ·)
        (reportedLz ⟨1, [], [], []⟩ (best_diff_init ⟨1, [], [], []⟩)
          [⟨[], [], [0, 64]⟩, ⟨[], [], [16]⟩, ⟨[], [], [0, 32]⟩]) ∧
      ∀ x ∈ reportedLz ⟨1, [], [], []⟩ (best_diff_init ⟨1, [], [], []⟩)
          [⟨[], [], [0, 64]⟩, ⟨[], [], [16]⟩, ⟨[], [], [0, 32]⟩], 2 ≤ x :=
  c5_threshold_one_run ⟨1, [], [], []⟩
    [⟨[], [], [0, 64]⟩, ⟨[], [], [16]⟩, ⟨[], [], [0, 32]⟩] rfl rfl rfl rfl

/-- C10: with no vanity target and a configured difficulty of 0, the
best-difficulty register starts at the built-in default 10, so every
report of a sequential run has at least 11 leading zero bits. -/
theorem c10_default_floor (a : CLIArgs) (cs : List Candidate)
    (h1 : a.vanityPrefix = []) (h2 : a.vanityNpubPrefixes = [])
    (h3 : a.vanityNpubSuffixes = []) (hd : a.difficulty = 0) :
    best_diff_init a = DIFFICULTY_DEFAULT ∧
      ∀ x ∈ reportedLz a (best_diff_init a) cs, 11 ≤ x := by
  have hb : best_diff_init a = 10 := by
    unfold best_diff_init resolvePow
    simp [h1, h2, h3, hd, DIFFICULTY_DEFAULT]
  rw [hb]
  refine ⟨rfl, ?_⟩
  rcases reportedLz_ratchet a h1 h2 h3 cs 10 (by decide) with ⟨hall, _⟩
  exact fun x hx => hall x hx

/-- Witness for C10: a run over one candidate with 12 leading zero bits
from the default register value. -/
theorem c10_witness :
    best_diff_init ⟨0, [], [], []⟩ = DIFFICULTY_DEFAULT ∧
      ∀ x ∈ reportedLz ⟨0, [], [], []⟩ (best_diff_init ⟨0, [], [], []⟩)
        [⟨[], [], [0, 8]⟩], 11 ≤ x :=
  c10_default_floor ⟨0, [], [], []⟩ [⟨[], [], [0, 8]⟩] rfl rfl rfl rfl

/-- Folding atomic increments from any in-range starting value adds the
number of increments, modulo 2^64. -/
theorem foldl_fetchAddOne (t : List Nat) :
    ∀ c, c < 2 ^ 64 →
      t.foldl (fun c _ => fetchAddOne c) c = (c + t.length) % 2 ^ 64 := by
  induction t with
  | nil =>
    intro c hc
    simp only [List.foldl_nil, List.length_nil, Nat.add_zero]
    exact (Nat.mod_eq_of_lt hc).symm
  | cons e rest ih =>
    intro c hc
    simp only [List.foldl_cons, List.length_cons]
    have h1 : fetchAddOne c < 2 ^ 64 := by
      unfold fetchAddOne
      exact Nat.mod_lt _ (by norm_num)
    rw [ih (fetchAddOne c) h1]
    unfold fetchAddOne
    rw [Nat.mod_add_mod]
    congr 1
    omega

/-- The shared counter after a trace of increments is the trace length
modulo 2^64. -/
theorem runCounter_eq_length_mod (t : List Nat) :
    runCounter t = t.length % 2 ^ 64 := by
  unfold runCounter
  rw [foldl_fetchAddOne t 0 (by norm_num)]
  simp

/-- A trace whose events all belong to W workers has as many events as the
sum of the per-worker event counts. -/
theorem length_eq_sum_count (W : Nat) (t : List Nat)
    (h : ∀ e ∈ t, e < W) :
    t.length = ∑ w ∈ Finset.range W, t.count w := by
  induction t with
  | nil => simp
  | cons e rest ih =>
    have he : e ∈ Finset.range W :=
      Finset.mem_range.mpr (h e (List.mem_cons_self e rest))
    have ih' := ih fun x hx => h x (List.mem_cons_of_mem e hx)
    simp only [List.length_cons, ih']
    have hsplit : ∀ w ∈ Finset.range W,
        (e :: rest).count w = rest.count w + if e = w then 1 else 0 := by
      intro w _
      simp [List.count_cons]
    rw [Finset.sum_congr rfl hsplit, Finset.sum_add_distrib,
      Finset.sum_ite_eq (Finset.range W) e fun _ => 1]
    simp [he]

/-- C6: every loop iteration performs exactly one atomic `fetch_add(1)` on
the shared counter, so for any interleaving of W workers each completing N
iterations the counter ends at exactly W×N (no lost updates, the total
staying below 2^64), and the counter is non-decreasing along the trace. -/
theorem c6_counter_exact (W N : Nat) (t : List Nat)
    (hmem : ∀ e ∈ t, e < W) (hcount : ∀ w < W, t.count w = N)
    (hlt : W * N < 2 ^ 64) :
    runCounter t = W * N ∧
      ∀ k₁ k₂, k₁ ≤ k₂ → runCounter (t.take k₁) ≤ runCounter (t.take k₂) := by
  have hlen : t.length = W * N := by
    rw [length_eq_sum_count W t hmem]
    rw [Finset.sum_congr rfl fun w hw => hcount w (Finset.mem_range.mp hw)]
    simp [Finset.sum_const, Nat.mul_comm]
  constructor
  · rw [runCounter_eq_length_mod, hlen, Nat.mod_eq_of_lt hlt]
  · intro k₁ k₂ hk
    rw [runCounter_eq_length_mod, runCounter_eq_length_mod]
    have hb : ∀ k, (t.take k).length < 2 ^ 64 := by
      intro k
      calc (t.take k).length ≤ t.length := by
            simp [List.length_take]
        _ < 2 ^ 64 := by omega
    rw [Nat.mod_eq_of_lt (hb k₁), Nat.mod_eq_of_lt (hb k₂)]
    simp [List.length_take]
    omega

/-- Witness for C6: two workers, three iterations each, on an alternating
interleaving of length six. -/
theorem c6_witness :
    runCounter [0, 1, 0, 1, 0, 1] = 2 * 3 ∧
      ∀ k₁ k₂, k₁ ≤ k₂ →
        runCounter (List.take k₁ [0, 1, 0, 1, 0, 1]) ≤
          runCounter (List.take k₂ [0, 1, 0, 1, 0, 1]) :=
  c6_counter_exact 2 3 [0, 1, 0, 1, 0, 1] (by decide) (by decide) (by decide)

/-- C8: a worker consuming per-iteration generation outcomes completes
every loop body whose generation succeeds, aborts abnormally at the first
failed generation, never retries (the outcomes after a failure are never
examined, so the run is the same whatever they are), and with no failures
completes all iterations normally. -/
theorem c8_abort_no_retry (cs : List Candidate)
    (post post₂ : List (Option Candidate)) :
    runWorkerGen (cs.map some ++ none :: post) = (cs, true) ∧
    runWorkerGen (cs.map some ++ none :: post) =
      runWorkerGen (cs.map some ++ none :: post₂) ∧
    runWorkerGen (cs.map some) = (cs, false) := by
  have key : ∀ (ds : List Candidate) (p : List (Option Candidate)),
      runWorkerGen (ds.map some ++ none :: p) = (ds, true) := by
    intro ds p
    induction ds with
    | nil => rfl
    | cons d rest ih => simp [runWorkerGen, ih]
  have key2 : ∀ ds : List Candidate, runWorkerGen (ds.map some) = (ds, false) := by
    intro ds
    induction ds with
    | nil => rfl
    | cons d rest ih => simp [runWorkerGen, ih]
  exact ⟨key cs post, (key cs post).trans (key cs post₂).symm, key2 cs⟩

/-- The hex branch ignores the register: acceptance and label do not
depend on it and it is left unchanged. -/
theorem hexEval_register (a : CLIArgs) (c : Candidate) (b₁ b₂ : Nat) :
    (hexEval a c b₁).isValid = (hexEval a c b₂).isValid ∧
    (hexEval a c b₁).vanityNpub = (hexEval a c b₂).vanityNpub ∧
    (hexEval a c b₁).newBest = b₁ :=
  ⟨rfl, rfl, rfl⟩

/-- The combined bech32 branch ignores the register. -/
theorem bothEval_register (a : CLIArgs) (c : Candidate) (b₁ b₂ : Nat) :
    (bothEval a c b₁).isValid = (bothEval a c b₂).isValid ∧
    (bothEval a c b₁).vanityNpub = (bothEval a c b₂).vanityNpub ∧
    (bothEval a c b₁).newBest = b₁ := by
  unfold bothEval
  cases searchBoth c.bechKey a.vanityNpubSuffixes a.vanityNpubPrefixes with
  | none => exact ⟨rfl, rfl, rfl⟩
  | some ps =>
    obtain ⟨p, s⟩ := ps
    exact ⟨rfl, rfl, rfl⟩

/-- The bech32 prefixes-only branch ignores the register. -/
theorem preEval_register (a : CLIArgs) (c : Candidate) (b₁ b₂ : Nat) :
    (preEval a c b₁).isValid = (preEval a c b₂).isValid ∧
    (preEval a c b₁).vanityNpub = (preEval a c b₂).vanityNpub ∧
    (preEval a c b₁).newBest = b₁ := by
  unfold preEval
  cases searchPres c.bechKey a.vanityNpubPrefixes with
  | none => exact ⟨rfl, rfl, rfl⟩
  | some p => exact ⟨rfl, rfl, rfl⟩

/-- The bech32 suffixes-only branch ignores the register. -/
theorem postEval_register (a : CLIArgs) (c : Candidate) (b₁ b₂ : Nat) :
    (postEval a c b₁).isValid = (postEval a c b₂).isValid ∧
    (postEval a c b₁).vanityNpub = (postEval a c b₂).vanityNpub ∧
    (postEval a c b₁).newBest = b₁ := by
  unfold postEval
  cases searchSuffixOnly c.bechKey a.vanityNpubSuffixes with
  | none => exact ⟨rfl, rfl, rfl⟩
  | some s => exact ⟨rfl, rfl, rfl⟩

/-- Counterexample to C2: with bech32 npub prefixes ["abc", "x"] and no
other target, the shortest configured prefix is "x", so the claim predicts
an estimate of 4 bits, but the program computes its estimate from the
FIRST configured prefix "abc" and reports 12. -/
theorem c2_counterexample :
    claimEstimatedPow ⟨0, [], [['a', 'b', 'c'], ['x']], []⟩ = 4 ∧
    resolvePow ⟨0, [], [['a', 'b', 'c'], ['x']], []⟩ = 12 ∧
    resolvePow ⟨0, [], [['a', 'b', 'c'], ['x']], []⟩ ≠
      claimEstimatedPow ⟨0, [], [['a', 'b', 'c'], ['x']], []⟩ := by
  refine ⟨rfl, rfl, ?_⟩
  decide

/-- C2 as amended: the user-facing estimate is 4 bits per character of the
FIRST configured prefix/suffix, truncated to 8 bits (hex mode: the hex
prefix; combined mode: first npub prefix plus first npub suffix;
single-set modes: the first element of the configured set), and in every
vanity mode the estimate plays no part in the per-candidate match test:
acceptance and label are independent of the register the estimate seeds,
and the register is never written. -/
theorem c2_first_element_estimate (a : CLIArgs) (c : Candidate) (b₁ b₂ : Nat) :
    (modeOf a = Mode.hexVanity →
      resolvePow a = (4 * a.vanityPrefix.length) % 256) ∧
    (modeOf a = Mode.bech32Both →
      resolvePow a = (4 * ((a.vanityNpubPrefixes.headD []).length +
        (a.vanityNpubSuffixes.headD []).length)) % 256) ∧
    (modeOf a = Mode.bech32Pre →
      resolvePow a = (4 * (a.vanityNpubPrefixes.headD []).length) % 256) ∧
    (modeOf a = Mode.bech32Post →
      resolvePow a = (4 * (a.vanityNpubSuffixes.headD []).length) % 256) ∧
    (modeOf a ≠ Mode.difficulty →
      (evaluate a c b₁).isValid = (evaluate a c b₂).isValid ∧
      (evaluate a c b₁).vanityNpub = (evaluate a c b₂).vanityNpub ∧
      (evaluate a c b₁).newBest = b₁) := by
  unfold modeOf resolvePow evaluate
  cases h1 : a.vanityPrefix.isEmpty <;>
    cases h2 : a.vanityNpubPrefixes.isEmpty <;>
      cases h3 : a.vanityNpubSuffixes.isEmpty <;>
        simp [h1, h2, h3, Nat.mul_comm, Nat.mul_add] <;>
          first
            | exact hexEval_register a c b₁ b₂
            | exact bothEval_register a c b₁ b₂
            | exact preEval_register a c b₁ b₂
            | exact postEval_register a c b₁ b₂

/-- Witness for the amended C2 at a concrete combined configuration:
prefixes ["ab","cd"], suffixes ["wxyz"], estimate 4*(2+4) = 24. -/
theorem c2_witness :
    resolvePow ⟨0, [], [['a', 'b'], ['c', 'd']], [['w', 'x', 'y', 'z']]⟩ =
      (4 * (((([['a', 'b'], ['c', 'd']] : List (List Char))).headD []).length +
        ((([['w', 'x', 'y', 'z']] : List (List Char))).headD []).length)) % 256 :=
  (c2_first_element_estimate ⟨0, [], [['a', 'b'], ['c', 'd']], [['w', 'x', 'y', 'z']]⟩
    ⟨[], [], []⟩ 0 1).2.1 (by decide)

end Rana
